import Mathlib

/-!
Verification of the decision-tree core of `jayelm/decisiontrees`
(`dtree.py`, `id3.py`, `fa.py`) against its natural-language specification.

Shallow embedding conventions:
* a CSV row (`Record`) is a total mapping from attribute name to value
  (the loader guarantees a consistent schema across rows, spec section 6);
* Python `Counter`/`dict` objects that the source only reads through
  membership, `len`, and key iteration are association lists kept in
  first-insertion order (Python 2 dict order is hash based; it is
  arbitrary but deterministic, and the spec allows any deterministic
  order for the places where it is observable);
* Python `set` objects of distinct attribute values are duplicate-free
  lists in first-occurrence order;
* exceptions are `Except` values; the error constructors carry the names
  the spec gives to the corresponding raised Python exceptions;
* floats are real numbers (`ℝ`), `math.log(p, 2)` is `Real.logb 2 p`.
-/

/-- A CSV row: a mapping from attribute name to value (`dict` in the source). -/
abbrev Row := String → String

/-- A subset of the CSV data: a list of rows. -/
abbrev Subset := List Row

/-- Add one occurrence of key `k` to an occurrence-count table
(`counts[k] += 1` on a Python `Counter`, keys kept in first-insertion order). -/
def countsIncr (cnts : List (String × Nat)) (k : String) : List (String × Nat) :=
  match cnts with
  | [] => [(k, 1)]
  | (k0, c) :: rest =>
    if k0 = k then (k0, c + 1) :: rest else (k0, c) :: countsIncr rest k

/-- `ID3.attr_counts` / `DTree.attr_counts`: the number of occurrences per
value of `attr` in `subset`. -/
def attrCounts (subset : Subset) (attr : String) : List (String × Nat) :=
  subset.foldl (fun cnts r => countsIncr cnts (r attr)) []

/-- `ID3.value_counts` / `DTree.value_counts`: occurrences per dependent value
among the rows with `row[attr] == value` (all rows when `base` is true).
`value` is `Option` because the `base` call site passes Python `None`. -/
def valueCounts (dep : String) (attr : String) (value : Option String)
    (base : Bool) (subset : Subset) : List (String × Nat) :=
  subset.foldl
    (fun cnts r =>
      if ((match value with | some v => r attr == v | none => false) || base) = true then
        countsIncr cnts (r dep)
      else cnts)
    []

/-- `filter_subset`: the rows of `subset` with `row[attr] == value`. -/
def filterSubset (subset : Subset) (attr : String) (value : String) : Subset :=
  subset.filter (fun r => r attr == value)

/-- `get_distinct_values` for one attribute: the distinct values observed for
`attr` across the data (a Python `set`, modelled in first-occurrence order). -/
def distinctValues (data : Subset) (attr : String) : List String :=
  data.foldl (fun acc r => if r attr ∈ acc then acc else acc ++ [r attr]) []

/-- The `properties` dictionary attached to a node: empty, `{'estimated': True}`,
`{'information_gain': g}`, or (fa.py fallback only) `{'max_groups': n}`. -/
inductive NodeProps (G : Type) : Type where
  | empty : NodeProps G
  | estimated : NodeProps G
  | informationGain (g : G) : NodeProps G
  | maxGroups (n : Nat) : NodeProps G
deriving DecidableEq

/-- `DTreeNode` from dtree.py: label, `parent_value` (None for the root),
diagnostic properties, leaf flag and the ordered list of children.
`G` is the type of the recorded information-gain values. -/
inductive DTreeNode (G : Type) : Type where
  | mk (label : String) (parent_value : Option String) (props : NodeProps G)
      (leaf : Bool) (children : List (DTreeNode G))

namespace DTreeNode

def label : DTreeNode G → String
  | .mk l _ _ _ _ => l

def parent_value : DTreeNode G → Option String
  | .mk _ pv _ _ _ => pv

def props : DTreeNode G → NodeProps G
  | .mk _ _ pr _ _ => pr

def leaf : DTreeNode G → Bool
  | .mk _ _ _ lf _ => lf

def children : DTreeNode G → List (DTreeNode G)
  | .mk _ _ _ _ cs => cs

end DTreeNode

/-- `DTreeNode.add_child`: append a node to the children list
(no uniqueness check is performed). -/
def addChild (n : DTreeNode G) (c : DTreeNode G) : DTreeNode G :=
  .mk n.label n.parent_value n.props n.leaf (n.children ++ [c])

/-- The errors `decide` can raise.  The spec names them `SchemaError`
(the source raises `ValueError("supplied attributes do not match data")`),
`DecisionError` (`ValueError("Invalid property found")`), plus the `KeyError`
Python would raise on `attrs_dict[self.label]` for a label outside the
attribute order (unreachable for built trees). -/
inductive DecideErr : Type where
  | schemaError : DecideErr
  | keyError : DecideErr
  | decisionError : DecideErr
deriving DecidableEq

mutual

/-- `DTreeNode._decide`: at a leaf return the label; otherwise look up the
current label's value in the record and walk the `for node in self.children`
loop looking for a child whose `parent_value` equals it. -/
def nodeDecide (d : String → Option String) : DTreeNode G → Except DecideErr String
  | .mk lab _ _ lf cs =>
    if lf then .ok lab
    else
      match d lab with
      | none => .error .keyError
      | some v => decideChildren d v cs

/-- The `for node in self.children` loop of `_decide`: recurse into the first
child whose `parent_value` equals the record's value; falling off the loop
raises `ValueError("Invalid property found")` (spec: `DecisionError`). -/
def decideChildren (d : String → Option String) (v : String) :
    List (DTreeNode G) → Except DecideErr String
  | [] => .error .decisionError
  | c :: cs =>
    if c.parent_value == some v then nodeDecide d c else decideChildren d v cs

end

/-- `DTree.decide`: check the supplied value list against the fixed attribute
order (`SchemaError` on length mismatch), zip it into a record keyed by
`attribute_order`, and walk the tree with `_decide`. -/
def treeDecide (order : List String) (root : DTreeNode G) (vals : List String) :
    Except DecideErr String :=
  if vals.length ≠ order.length then .error .schemaError
  else nodeDecide (fun a => (order.zip vals).lookup a) root

/-- One element of a rule tuple produced by `_rules`: either an
`(attribute, parent_value)` pair or the bare leaf label that ends the rule. -/
inductive RuleEntry : Type where
  | pair (attr : String) (value : Option String) : RuleEntry
  | lab (s : String) : RuleEntry
deriving DecidableEq

abbrev Rule := List RuleEntry

mutual

/-- `DTreeNode._rules`: accumulate the `(parent label, parent_value)` pairs on
the way down; at a leaf emit the accumulated path terminated by the leaf label;
otherwise concatenate the children's rule lists (`rows.extend`). -/
def nodeRules (parentLabel : Option String) (previous : Rule) :
    DTreeNode G → List Rule
  | .mk lab pv _ lf cs =>
    let prev2 := match parentLabel with
      | none => previous
      | some pl => previous ++ [RuleEntry.pair pl pv]
    if lf then [prev2 ++ [RuleEntry.lab lab]]
    else nodeRulesList lab prev2 cs

/-- The `for node in self.children: rows.extend(...)` loop of `_rules`. -/
def nodeRulesList (lab : String) (prev2 : Rule) :
    List (DTreeNode G) → List Rule
  | [] => []
  | c :: cs => nodeRules (some lab) prev2 c ++ nodeRulesList lab prev2 cs

end

/-- The values `[p[1] for p in rule if isinstance(p, tuple)]` used as the
secondary sort key: the `parent_value` entries of the pairs, with Python
`None` as `⊥` (Python 2 orders `None` before every string). -/
def ruleVals (r : Rule) : List (WithBot String) :=
  r.filterMap (fun e =>
    match e with
    | .pair _ none => some ⊥
    | .pair _ (some v) => some (WithBot.some v)
    | .lab _ => none)

/-- The sort key of `DTree.rules`: `(len(t), [p[1] for p in t if tuple])`,
compared lexicographically. -/
def ruleKey (r : Rule) : Lex (Nat × List (WithBot String)) :=
  toLex (r.length, ruleVals r)

/-- The comparison `sorted` uses on rule tuples. -/
def ruleLE (r1 r2 : Rule) : Prop :=
  ruleKey r1 ≤ ruleKey r2

instance : DecidableRel ruleLE :=
  fun r1 r2 => inferInstanceAs (Decidable (ruleKey r1 ≤ ruleKey r2))

instance : IsTotal Rule ruleLE :=
  ⟨fun r1 r2 => le_total (ruleKey r1) (ruleKey r2)⟩

instance : IsTrans Rule ruleLE :=
  ⟨fun _ _ _ h1 h2 => le_trans h1 h2⟩

/-- `DTree.rules`: all root-to-leaf traversals, sorted by
`(len(t), value sequence)`.  Python `sorted` is a stable sort; it is modelled
by Mathlib's stable `insertionSort`, which produces the same list as any
stable sort under the same total preorder. -/
def treeRules (root : DTreeNode G) : List Rule :=
  List.insertionSort ruleLE (nodeRules none [] root)

/-- Reading the attribute `num_leaves` on a `DTreeNode`: the class has no such
attribute (only `_num_leaves` and `num_children`), so the access raises
`AttributeError`; `none` models the exception. -/
def nodeNumLeavesAttr (_n : DTreeNode G) : Option Nat := none

/-- `DTreeNode._num_leaves`: 1 at a leaf, otherwise
`sum(c.num_leaves for c in self.children)` — which evaluates the nonexistent
attribute `num_leaves` on each child (an empty generator sums to 0 without
touching it). -/
def nodeNumLeaves (n : DTreeNode G) : Option Nat :=
  if n.leaf then some 1
  else (n.children.mapM nodeNumLeavesAttr).map (fun l => l.foldl (· + ·) 0)

/-- `DTree.num_leaves`: 1 when the root is a leaf, otherwise
`sum(c._num_leaves for c in self.root.children)`. -/
def treeNumLeaves (root : DTreeNode G) : Option Nat :=
  if root.leaf then some 1
  else (root.children.mapM nodeNumLeaves).map (fun l => l.foldl (· + ·) 0)

mutual

/-- Modelled from the spec (section 4.1, for comparison with the code's
`leaf_count`): total number of leaves in the subtree rooted here — 1 for a
leaf node; the sum over children otherwise. -/
def specLeafCount : DTreeNode G → Nat
  | .mk _ _ _ lf cs => if lf then 1 else specLeafCountList cs

/-- Sum of `specLeafCount` over a list of children. -/
def specLeafCountList : List (DTreeNode G) → Nat
  | [] => 0
  | c :: cs => specLeafCount c + specLeafCountList cs

end

/-- The errors `create_tree` can raise.  `emptyDomain` is the `TypeError`
raised when the root subset is empty and the fallback iterates the `None`
parent subset (the spec's `EmptyDomainError` for a degenerate dataset, since
an independent attribute has zero observed values exactly when the dataset
has no rows); `maxEmpty` is the `ValueError` `max` raises on an empty
sequence (unreachable from `build`). -/
inductive BuildErr : Type where
  | emptyDomain : BuildErr
  | maxEmpty : BuildErr
deriving DecidableEq

/-- Python `max(xs, key=...)` starting from current maximum `cur`: replace the
candidate only on a strictly greater key, so the first maximal element wins. -/
def pyMaxBy [LinearOrder G] (cur : String × G) : List (String × G) → String × G
  | [] => cur
  | y :: ys => if cur.2 < y.2 then pyMaxBy y ys else pyMaxBy cur ys

theorem pyMaxBy_mem [LinearOrder G] (cur : String × G) (l : List (String × G)) :
    pyMaxBy cur l ∈ cur :: l := by
  induction l generalizing cur with
  | nil => simp [pyMaxBy]
  | cons y ys ih =>
    simp only [pyMaxBy]
    by_cases h : cur.2 < y.2
    · simp only [if_pos h]
      rcases List.mem_cons.mp (ih y) with h1 | h2
      · rw [h1]
        exact List.mem_cons_of_mem _ (List.mem_cons_self _ _)
      · exact List.mem_cons_of_mem _ (List.mem_cons_of_mem _ h2)
    · simp only [if_neg h]
      rcases List.mem_cons.mp (ih cur) with h1 | h2
      · rw [h1]
        exact List.mem_cons_self _ _
      · exact List.mem_cons_of_mem _ (List.mem_cons_of_mem _ h2)

theorem pyMaxBy_le [LinearOrder G] (cur : String × G) (l : List (String × G)) :
    ∀ y ∈ cur :: l, y.2 ≤ (pyMaxBy cur l).2 := by
  induction l generalizing cur with
  | nil => intro y hy; simp at hy; simp [pyMaxBy, hy]
  | cons z zs ih =>
    intro y hy
    simp only [pyMaxBy]
    rcases List.mem_cons.mp hy with h1 | h2
    · subst h1
      by_cases h : y.2 < z.2
      · simp only [if_pos h]
        exact le_of_lt (lt_of_lt_of_le h (ih z z (List.mem_cons_self _ _)))
      · simp only [if_neg h]
        exact ih y y (List.mem_cons_self _ _)
    · rcases List.mem_cons.mp h2 with h3 | h4
      · subst h3
        by_cases h : cur.2 < y.2
        · simp only [if_pos h]
          exact ih y y (List.mem_cons_self _ _)
        · simp only [if_neg h]
          exact le_trans (not_lt.mp h) (ih cur cur (List.mem_cons_self _ _))
      · by_cases h : cur.2 < z.2
        · simp only [if_pos h]
          exact ih z y (List.mem_cons_of_mem _ h4)
        · simp only [if_neg h]
          exact ih cur y (List.mem_cons_of_mem _ h4)

theorem pyMaxBy_first [LinearOrder G] (cur : String × G) (l : List (String × G)) :
    ∃ l1 l2, cur :: l = l1 ++ (pyMaxBy cur l) :: l2 ∧
      ∀ y ∈ l1, y.2 < (pyMaxBy cur l).2 := by
  induction l generalizing cur with
  | nil => exact ⟨[], [], by simp [pyMaxBy], by simp⟩
  | cons z zs ih =>
    simp only [pyMaxBy]
    by_cases h : cur.2 < z.2
    · simp only [if_pos h]
      rcases ih z with ⟨l1, l2, he, hlt⟩
      refine ⟨cur :: l1, l2, by simp [he], ?_⟩
      intro y hy
      rcases List.mem_cons.mp hy with h1 | h2
      · exact h1 ▸ lt_of_lt_of_le h (pyMaxBy_le z zs z (List.mem_cons_self _ _))
      · exact hlt y h2
    · simp only [if_neg h]
      rcases ih cur with ⟨l1, l2, he, hlt⟩
      cases l1 with
      | nil =>
        simp only [List.nil_append, List.cons.injEq] at he
        refine ⟨[], z :: zs, ?_, by simp⟩
        simp only [List.nil_append, List.cons.injEq]
        exact ⟨he.1, trivial⟩
      | cons w l1t =>
        simp only [List.cons_append, List.cons.injEq] at he
        have hcur : cur.2 < (pyMaxBy cur zs).2 := by
          have := hlt w (List.mem_cons_self _ _)
          rw [← he.1] at this
          exact this
        refine ⟨cur :: z :: l1t, l2, ?_, ?_⟩
        · simp only [List.cons_append, List.cons.injEq]
          exact ⟨trivial, trivial, he.2⟩
        · intro y hy
          rcases List.mem_cons.mp hy with h1 | h2
          · rw [h1]; exact hcur
          · rcases List.mem_cons.mp h2 with h3 | h4
            · rw [h3]; exact lt_of_le_of_lt (not_lt.mp h) hcur
            · exact hlt y (List.mem_cons_of_mem _ h4)

theorem pyMaxBy_map_fst_mem [LinearOrder G] (g : String → G) (a0 : String)
    (as1 : List String) :
    (pyMaxBy (a0, g a0) (as1.map (fun a => (a, g a)))).1 ∈ a0 :: as1 := by
  rcases List.mem_cons.mp (pyMaxBy_mem (a0, g a0) (as1.map (fun a => (a, g a)))) with h1 | h2
  · rw [h1]
    exact List.mem_cons_self _ _
  · rcases List.mem_map.mp h2 with ⟨a, ha, he⟩
    rw [← he]
    exact List.mem_cons_of_mem _ ha

theorem pyMaxBy_map_snd [LinearOrder G] (g : String → G) (a0 : String)
    (as1 : List String) :
    (pyMaxBy (a0, g a0) (as1.map (fun a => (a, g a)))).2 =
      g (pyMaxBy (a0, g a0) (as1.map (fun a => (a, g a)))).1 := by
  rcases List.mem_cons.mp (pyMaxBy_mem (a0, g a0) (as1.map (fun a => (a, g a)))) with h1 | h2
  · rw [h1]
  · rcases List.mem_map.mp h2 with ⟨a, _, he⟩
    rw [← he]

/-- The `elif not remaining or use_parent` leaf: label with the most common
dependent value of `counts` (`max` on an empty counter raises `ValueError`,
modelled as `maxEmpty`), mark the diagnostics `estimated`. -/
def estimatedLeaf (counts : List (String × Nat)) (parent_value : Option String)
    : Except BuildErr (DTreeNode G) :=
  match counts with
  | [] => .error .maxEmpty
  | c :: cs => .ok (.mk (pyMaxBy c cs).1 parent_value .estimated true [])

mutual

/-- `ID3.create_tree` (id3.py) with the information-gain function as a
parameter `gain` (fa.py's `create_tree` differs only by its unreachable
zero-gain fallback, see `faCreateTreeAux`).  id3.py writes its node
constructions as `dtree.DTree(label=…, leaf=…, parent_value=…,
properties=…)`, the node interface of an earlier revision of the dtree
module; the repository's current dtree.py offers exactly those fields as
`DTreeNode` (used identically by fa.py), so nodes are modelled as
`DTreeNode`.  Mirrors the source: on an empty
subset fall back to the parent's subset (`TypeError` — spec: `EmptyDomainError`
— when there is none, i.e. at the root of an empty dataset); a single
dependent value gives a pure leaf with empty properties; no remaining
attributes or an exercised fallback gives an `estimated` leaf labeled with the
most common dependent value; otherwise split on the remaining attribute of
maximum gain (Python `max` keeps the first maximum) and recurse into the
filtered rows for every value in the attribute's full-dataset domain. -/
def createTreeAux [LinearOrder G] (dep : String) (values : String → List String)
    (gain : Subset → String → G) (parentSubset : Option Subset) (subset : Subset)
    (parent_value : Option String) (remaining : List String) :
    Except BuildErr (DTreeNode G) :=
  if attrCounts subset dep = [] then
    match parentSubset with
    | none => .error .emptyDomain
    | some ps =>
      if (attrCounts ps dep).length = 1 then
        .ok (.mk (attrCounts ps dep).headI.1 parent_value .empty true [])
      else estimatedLeaf (attrCounts ps dep) parent_value
  else
    if (attrCounts subset dep).length = 1 then
      .ok (.mk (attrCounts subset dep).headI.1 parent_value .empty true [])
    else
      match remaining with
      | [] => estimatedLeaf (attrCounts subset dep) parent_value
      | a0 :: as1 =>
        let maxAttr := pyMaxBy (a0, gain subset a0)
          (as1.map (fun a => (a, gain subset a)))
        do
          let cs ← createChildren dep values gain subset maxAttr.1
            ((a0 :: as1).erase maxAttr.1) (values maxAttr.1)
          return .mk maxAttr.1 parent_value (.informationGain maxAttr.2) false cs
termination_by (remaining.length, 0)
decreasing_by
  apply Prod.Lex.left
  have hmem := pyMaxBy_map_fst_mem (gain subset) a0 as1
  rw [List.length_erase_of_mem hmem]
  have hpos : 0 < (a0 :: as1).length := by simp
  exact Nat.sub_lt hpos Nat.one_pos

/-- The `for value in self.values[node.label]` loop of `create_tree`: build one
child per domain value of the winning attribute, recursing into the rows
filtered by that value, with the winning attribute removed from `remaining`. -/
def createChildren [LinearOrder G] (dep : String) (values : String → List String)
    (gain : Subset → String → G) (subset : Subset) (lab : String)
    (newRem : List String) : List String → Except BuildErr (List (DTreeNode G))
  | [] => .ok []
  | v :: vs => do
    let c ← createTreeAux dep values gain (some subset) (filterSubset subset lab v)
      (some v) newRem
    let rest ← createChildren dep values gain subset lab newRem vs
    return c :: rest
termination_by vs => (newRem.length, vs.length + 1)
decreasing_by
  · apply Prod.Lex.right
    simp only [List.length_cons]
    omega
  · apply Prod.Lex.right
    simp only [List.length_cons]
    omega

end

/-- `ID3.create_tree()` invoked on a fresh instance: the subset is the whole
dataset, the parent is `None`, `remaining` is the independent attribute list,
and the per-attribute domains were computed once over the full dataset by
`get_distinct_values`.  The fixed `attribute_order` stored with the tree is
`attributes` itself (`node.set_attributes(self.attributes)`). -/
def build [LinearOrder G] (gain : Subset → String → G) (data : Subset)
    (attributes : List String) (dep : String) : Except BuildErr (DTreeNode G) :=
  createTreeAux dep (distinctValues data) gain none data none attributes

mutual

/-- Preorder list of all nodes of a tree (the node itself and, recursively,
every node of every child). -/
def allNodes : DTreeNode G → List (DTreeNode G)
  | .mk l pv pr lf cs => .mk l pv pr lf cs :: allNodesList cs

/-- All nodes of a list of trees. -/
def allNodesList : List (DTreeNode G) → List (DTreeNode G)
  | [] => []
  | c :: cs => allNodes c ++ allNodesList cs

end

/-- Python 2 `==` between a `str` and the `int` literal `0`: operands of
different types compare unequal, so the guard `max_attr[0] == 0` in fa.py is
`False` for every string attribute name. -/
def pyStrEqIntZero (_s : String) : Bool := false

/-- `FactorialAnalysis.remaining_distinct_values`:
`len(set(r[attr] for r in subset))`. -/
def remainingDistinctValues (subset : Subset) (attr : String) : Nat :=
  (distinctValues subset attr).length

/-- `FactorialAnalysis.information_gain`: the number of rows belonging to an
attribute/value pair whose rows carry a single dependent value (a perfect
classification), divided by the total number of rows counted over the
attribute's full domain.  The source divides floats; the quotient is exact,
so it is modelled in `ℚ`. -/
def faInformationGain (values : String → List String) (dep : String)
    (subset : Subset) (attr : String) : ℚ :=
  let pt := (values attr).foldl
    (fun (pt : ℚ × ℚ) val =>
      let counts := valueCounts dep attr (some val) false subset
      let total := pt.2 + (((counts.map (fun p => p.2)).sum : Nat) : ℚ)
      let perfect := if counts.length = 1 then pt.1 + (counts.headI.2 : ℚ) else pt.1
      (perfect, total))
    (0, 0)
  pt.1 / pt.2

mutual

/-- `FactorialAnalysis.create_tree` (fa.py): identical to `createTreeAux`
with `faInformationGain` except for the zero-gain fallback guarded by
`max_attr[0] == 0`, which compares the winning attribute's *name* with the
int `0` and would otherwise relabel the split with the attribute of most
distinct values and record `max_groups` instead of `information_gain`. -/
def faCreateTreeAux (dep : String) (values : String → List String)
    (parentSubset : Option Subset) (subset : Subset)
    (parent_value : Option String) (remaining : List String) :
    Except BuildErr (DTreeNode ℚ) :=
  if attrCounts subset dep = [] then
    match parentSubset with
    | none => .error .emptyDomain
    | some ps =>
      if (attrCounts ps dep).length = 1 then
        .ok (.mk (attrCounts ps dep).headI.1 parent_value .empty true [])
      else estimatedLeaf (attrCounts ps dep) parent_value
  else
    if (attrCounts subset dep).length = 1 then
      .ok (.mk (attrCounts subset dep).headI.1 parent_value .empty true [])
    else
      match remaining with
      | [] => estimatedLeaf (attrCounts subset dep) parent_value
      | a0 :: as1 =>
        let maxAttr := pyMaxBy (a0, faInformationGain values dep subset a0)
          (as1.map (fun a => (a, faInformationGain values dep subset a)))
        if pyStrEqIntZero maxAttr.1 then
          let maxG := pyMaxBy (a0, remainingDistinctValues subset a0)
            (as1.map (fun a => (a, remainingDistinctValues subset a)))
          do
            let cs ← faCreateChildren dep values subset maxG.1
              ((a0 :: as1).erase maxG.1) (values maxG.1)
            return .mk maxG.1 parent_value (.maxGroups maxG.2) false cs
        else
          do
            let cs ← faCreateChildren dep values subset maxAttr.1
              ((a0 :: as1).erase maxAttr.1) (values maxAttr.1)
            return .mk maxAttr.1 parent_value (.informationGain maxAttr.2) false cs
termination_by (remaining.length, 0)
decreasing_by
  · apply Prod.Lex.left
    have hmem := pyMaxBy_map_fst_mem (remainingDistinctValues subset) a0 as1
    rw [List.length_erase_of_mem hmem]
    have hpos : 0 < (a0 :: as1).length := by simp
    exact Nat.sub_lt hpos Nat.one_pos
  · apply Prod.Lex.left
    have hmem := pyMaxBy_map_fst_mem (faInformationGain values dep subset) a0 as1
    rw [List.length_erase_of_mem hmem]
    have hpos : 0 < (a0 :: as1).length := by simp
    exact Nat.sub_lt hpos Nat.one_pos

/-- The child-construction loop of `FactorialAnalysis.create_tree`. -/
def faCreateChildren (dep : String) (values : String → List String)
    (subset : Subset) (lab : String) (newRem : List String) :
    List String → Except BuildErr (List (DTreeNode ℚ))
  | [] => .ok []
  | v :: vs => do
    let c ← faCreateTreeAux dep values (some subset)
      (filterSubset subset lab v) (some v) newRem
    let rest ← faCreateChildren dep values subset lab newRem vs
    return c :: rest
termination_by vs => (newRem.length, vs.length + 1)
decreasing_by
  · apply Prod.Lex.right
    simp only [List.length_cons]
    omega
  · apply Prod.Lex.right
    simp only [List.length_cons]
    omega

end

/-- `FactorialAnalysis.create_tree()` invoked at top level (fa.py inherits
parsing, domains and `attribute_order` handling from `DTree`). -/
def faBuild (data : Subset) (attributes : List String) (dep : String) :
    Except BuildErr (DTreeNode ℚ) :=
  faCreateTreeAux dep (distinctValues data) none data none attributes

/-- `Counter` lookup `counts[k]`: the stored count, or 0 for a missing key. -/
def countsGet (cnts : List (String × Nat)) (k : String) : Nat :=
  match cnts with
  | [] => 0
  | (k0, c) :: rest => if k0 = k then c else countsGet rest k

/-- `ID3.entropy(subset, attr, value, base)`: Shannon entropy of the dependent
distribution among the rows matched by `value_counts`; the empty loop over an
empty counter yields 0.  Floats are modelled as reals, `math.log(p, 2)` as
`Real.logb 2 p`. -/
noncomputable def entropyPy (dep attr : String) (value : Option String)
    (base : Bool) (subset : Subset) : ℝ :=
  let counts := valueCounts dep attr value base subset
  let total : ℝ := (((counts.map (fun p => p.2)).sum : Nat) : ℝ)
  counts.foldl
    (fun e p => e + -(((p.2 : ℝ) / total) * Real.logb 2 ((p.2 : ℝ) / total))) 0

/-- `ID3.get_base_entropy(subset)`: `entropy(subset, dependent, None, base=True)`. -/
noncomputable def getBaseEntropy (dep : String) (subset : Subset) : ℝ :=
  entropyPy dep dep none true subset

/-- `ID3.information_gain(subset, attr)`: base entropy of the subset plus, for
every value in the attribute's full-dataset domain, minus
`(counts[value]/total) * entropy(subset, attr, value)`. -/
noncomputable def informationGain (values : String → List String) (dep : String)
    (subset : Subset) (attr : String) : ℝ :=
  let counts := attrCounts subset attr
  let total : ℝ := (((counts.map (fun p => p.2)).sum : Nat) : ℝ)
  (values attr).foldl
    (fun g v =>
      g + -(((countsGet counts v : ℝ) / total) *
        entropyPy dep attr (some v) false subset))
    (getBaseEntropy dep subset)

/-- `ID3.create_tree()` with its real information gain: the gain-parameterized
skeleton instantiated with `informationGain` over the dataset's full-domain
values (the theorems about `build` quantified over `gain` apply to it). -/
noncomputable def id3Build (data : Subset) (attrs : List String) (dep : String) :
    Except BuildErr (DTreeNode ℝ) :=
  build (informationGain (distinctValues data) dep) data attrs dep

/-- Modelled from the spec (section 4.2, for comparison with the code's
`information_gain`): the Shannon entropy of a subset with respect to the
dependent attribute, `−Σ_c (n_c/|S|)·log2(n_c/|S|)` over the dependent
classes present in `S`. -/
noncomputable def specEntropy (dep : String) (S : Subset) : ℝ :=
  -(((attrCounts S dep).map
    (fun p => ((p.2 : ℝ) / (S.length : ℝ)) *
      Real.logb 2 ((p.2 : ℝ) / (S.length : ℝ)))).sum)

theorem foldl_add_eq_sum {α : Type} (f : α → ℝ) (l : List α) :
    ∀ init : ℝ, l.foldl (fun g v => g + f v) init = init + (l.map f).sum := by
  induction l with
  | nil => intro init; simp
  | cons x xs ih =>
    intro init
    simp only [List.foldl_cons, List.map_cons, List.sum_cons]
    rw [ih (init + f x)]
    ring

theorem sum_map_neg_eq {α : Type} (f : α → ℝ) (l : List α) :
    (l.map (fun x => -(f x))).sum = -((l.map f).sum) := by
  induction l with
  | nil => simp
  | cons x xs ih => simp [ih]; ring

theorem countsIncr_sumVal (c : List (String × Nat)) (k : String) :
    ((countsIncr c k).map (fun p => p.2)).sum = ((c.map (fun p => p.2)).sum) + 1 := by
  induction c with
  | nil => simp [countsIncr]
  | cons p rest ih =>
    rcases p with ⟨k0, c0⟩
    simp only [countsIncr]
    by_cases h : k0 = k
    · simp only [if_pos h, List.map_cons, List.sum_cons]
      omega
    · simp only [if_neg h, List.map_cons, List.sum_cons, ih]
      omega

theorem attrCounts_foldl_sumVal (attr : String) (S : Subset) :
    ∀ init : List (String × Nat),
      (((S.foldl (fun c r => countsIncr c (r attr)) init).map (fun p => p.2)).sum)
        = ((init.map (fun p => p.2)).sum) + S.length := by
  induction S with
  | nil => intro init; simp
  | cons r rs ih =>
    intro init
    simp only [List.foldl_cons, List.length_cons]
    rw [ih (countsIncr init (r attr)), countsIncr_sumVal]
    omega

theorem attrCounts_sumVal (S : Subset) (attr : String) :
    ((attrCounts S attr).map (fun p => p.2)).sum = S.length := by
  have h := attrCounts_foldl_sumVal attr S []
  simpa [attrCounts] using h

theorem valueCounts_eq_attrCounts_filter (dep a v : String) (S : Subset) :
    valueCounts dep a (some v) false S = attrCounts (filterSubset S a v) dep := by
  suffices h : ∀ init : List (String × Nat),
      S.foldl
        (fun cnts r =>
          if (r a == v) = true then countsIncr cnts (r dep) else cnts) init
        = ((S.filter (fun r => r a == v)).foldl
            (fun c r => countsIncr c (r dep)) init) by
    simpa [valueCounts, attrCounts, filterSubset] using h []
  induction S with
  | nil => intro init; simp
  | cons r rs ih =>
    intro init
    simp only [List.foldl_cons, List.filter_cons]
    by_cases hr : (r a == v) = true
    · simp only [if_pos hr, List.foldl_cons]
      exact ih (countsIncr init (r dep))
    · simp only [if_neg hr]
      exact ih init

theorem valueCounts_base_eq_attrCounts (dep : String) (S : Subset) :
    valueCounts dep dep none true S = attrCounts S dep := by
  simp [valueCounts, attrCounts]

theorem countsGet_incr (c : List (String × Nat)) (k v : String) :
    countsGet (countsIncr c k) v = countsGet c v + (if k = v then 1 else 0) := by
  induction c with
  | nil =>
    simp only [countsIncr, countsGet]
    by_cases h : k = v
    · simp [h]
    · simp [h]
  | cons p rest ih =>
    rcases p with ⟨k0, c0⟩
    simp only [countsIncr]
    by_cases h : k0 = k
    · simp only [if_pos h, countsGet]
      by_cases hv : k0 = v
      · have hk : k = v := by rw [← h]; exact hv
        simp [hv, hk]
      · have hk : ¬k = v := by rw [← h]; exact hv
        simp [hv, hk]
    · simp only [if_neg h, countsGet]
      by_cases hv : k0 = v
      · have hk : ¬k = v := fun he => h (by rw [hv, he])
        simp [hv, hk]
      · simp [hv, ih]

theorem countsGet_foldl (a v : String) (S : Subset) :
    ∀ init : List (String × Nat),
      countsGet (S.foldl (fun c r => countsIncr c (r a)) init) v
        = countsGet init v + (filterSubset S a v).length := by
  induction S with
  | nil => intro init; simp [filterSubset]
  | cons r rs ih =>
    intro init
    simp only [List.foldl_cons]
    rw [ih (countsIncr init (r a)), countsGet_incr]
    have hf : filterSubset (r :: rs) a v =
        if (r a == v) = true then r :: filterSubset rs a v else filterSubset rs a v := by
      simp [filterSubset, List.filter_cons]
    rw [hf]
    by_cases hr : r a = v
    · simp only [hr, beq_self_eq_true, if_pos, List.length_cons]
      omega
    · have hb : ¬((r a == v) = true) := by simp [hr]
      rw [if_neg hr, if_neg hb]
      omega

theorem countsGet_attrCounts (S : Subset) (a v : String) :
    countsGet (attrCounts S a) v = (filterSubset S a v).length := by
  have h := countsGet_foldl a v S []
  simpa [attrCounts, countsGet] using h

theorem entropyPy_value_eq_spec (dep a v : String) (S : Subset) :
    entropyPy dep a (some v) false S = specEntropy dep (filterSubset S a v) := by
  simp only [entropyPy, specEntropy]
  rw [valueCounts_eq_attrCounts_filter, attrCounts_sumVal,
    foldl_add_eq_sum, zero_add, sum_map_neg_eq]

theorem getBaseEntropy_eq_spec (dep : String) (S : Subset) :
    getBaseEntropy dep S = specEntropy dep S := by
  simp only [getBaseEntropy, entropyPy, specEntropy]
  rw [valueCounts_base_eq_attrCounts, attrCounts_sumVal,
    foldl_add_eq_sum, zero_add, sum_map_neg_eq]

/-- Example row `{A: x, D: yes}` for concrete instantiations. -/
def rowXYes : Row := fun s => if s = "A" then "x" else "yes"

/-- Example row `{A: y, D: no}` for concrete instantiations. -/
def rowYNo : Row := fun s => if s = "A" then "y" else "no"

/-- A two-row dataset over independent attribute `A` and dependent `D`. -/
def exData : Subset := [rowXYes, rowYNo]

/-- Example row `{Weather: Sunny, PlayTennis: Yes}` (spec section 8 scenario). -/
def rowSunnyYes : Row := fun s => if s = "Weather" then "Sunny" else "Yes"

/-- Example row `{Weather: Rainy, PlayTennis: No}` (spec section 8 scenario). -/
def rowRainyNo : Row := fun s => if s = "Weather" then "Rainy" else "No"

/-- The spec's concrete scenario dataset:
`[(Sunny,Yes),(Sunny,Yes),(Rainy,No),(Rainy,No)]`. -/
def weatherData : Subset := [rowSunnyYes, rowSunnyYes, rowRainyNo, rowRainyNo]

/-- C6: for every non-empty subset `S` and attribute `a`,
`information_gain(S, a)` equals the Shannon entropy of `S` with respect to the
dependent attribute minus the sum, over every value `v` in `a`'s full domain,
of `(|S_v|/|S|)` times the entropy of the filtered subset `S_v`; a value
absent from `S` contributes a zero-weight, zero-entropy term (its `S_v` is
empty, so both factors are 0), and `specEntropy` is exactly
`−Σ_c (n_c/|S|)·log2(n_c/|S|)` over the dependent classes present. -/
theorem C6_information_gain_formula (values : String → List String)
    (dep a : String) (S : Subset) (hS : S ≠ []) :
    informationGain values dep S a =
      specEntropy dep S -
        ((values a).map (fun v =>
          (((filterSubset S a v).length : ℝ) / (S.length : ℝ)) *
            specEntropy dep (filterSubset S a v))).sum := by
  simp only [informationGain]
  rw [foldl_add_eq_sum, getBaseEntropy_eq_spec]
  simp only [attrCounts_sumVal, countsGet_attrCounts, entropyPy_value_eq_spec,
    sum_map_neg_eq]
  ring

/-- Witness for C6 at the concrete dataset `exData` with domain `{x, y}`. -/
theorem C6_information_gain_formula_witness :
    informationGain (fun _ => ["x", "y"]) "D" exData "A" =
      specEntropy "D" exData -
        (([ "x", "y" ] : List String).map (fun v =>
          (((filterSubset exData "A" v).length : ℝ) / (exData.length : ℝ)) *
            specEntropy "D" (filterSubset exData "A" v))).sum :=
  C6_information_gain_formula (fun _ => ["x", "y"]) "D" "A" exData
    (by simp [exData])

theorem countsIncr_ne_nil (c : List (String × Nat)) (k : String) :
    countsIncr c k ≠ [] := by
  cases c with
  | nil => simp [countsIncr]
  | cons p rest =>
    rcases p with ⟨k0, c0⟩
    simp only [countsIncr]
    by_cases h : k0 = k <;> simp [h]

theorem foldl_countsIncr_ne_nil (attr : String) (S : Subset) :
    ∀ init : List (String × Nat), init ≠ [] →
      S.foldl (fun c r => countsIncr c (r attr)) init ≠ [] := by
  induction S with
  | nil => intro init h; simpa using h
  | cons r rs ih =>
    intro init _
    simp only [List.foldl_cons]
    exact ih _ (countsIncr_ne_nil _ _)

theorem attrCounts_eq_nil_iff (S : Subset) (attr : String) :
    attrCounts S attr = [] ↔ S = [] := by
  constructor
  · intro h
    cases S with
    | nil => rfl
    | cons r rs =>
      have h1 :=
        foldl_countsIncr_ne_nil attr rs (countsIncr [] (r attr))
          (countsIncr_ne_nil [] (r attr))
      have h2 : attrCounts (r :: rs) attr =
          rs.foldl (fun c q => countsIncr c (q attr)) (countsIncr [] (r attr)) := by
        simp [attrCounts]
      rw [h2] at h
      exact absurd h h1
  · intro h
    subst h
    rfl

theorem distinctValues_eq_nil_iff (data : Subset) (attr : String) :
    distinctValues data attr = [] ↔ data = [] := by
  constructor
  · intro h
    cases data with
    | nil => rfl
    | cons r rs =>
      exfalso
      have hne : ∀ (S : Subset) (acc : List String), acc ≠ [] →
          S.foldl (fun acc r => if r attr ∈ acc then acc else acc ++ [r attr]) acc ≠ [] := by
        intro S
        induction S with
        | nil => intro acc ha; simpa using ha
        | cons q qs ih =>
          intro acc ha
          simp only [List.foldl_cons]
          by_cases hq : q attr ∈ acc
          · simp only [if_pos hq]
            exact ih acc ha
          · simp only [if_neg hq]
            exact ih _ (by simp)
      have hd : distinctValues (r :: rs) attr =
          rs.foldl (fun acc r => if r attr ∈ acc then acc else acc ++ [r attr]) [r attr] := by
        simp [distinctValues]
      exact hne rs [r attr] (by simp) (by rw [← hd]; exact h)
  · intro h
    subst h
    rfl

theorem distinctValues_nodup (data : Subset) (attr : String) :
    (distinctValues data attr).Nodup := by
  have hgen : ∀ (S : Subset) (acc : List String), acc.Nodup →
      (S.foldl (fun acc r => if r attr ∈ acc then acc else acc ++ [r attr]) acc).Nodup := by
    intro S
    induction S with
    | nil => intro acc ha; simpa using ha
    | cons q qs ih =>
      intro acc ha
      simp only [List.foldl_cons]
      by_cases hq : q attr ∈ acc
      · simp only [if_pos hq]
        exact ih acc ha
      · simp only [if_neg hq]
        refine ih _ ?_
        simp [List.nodup_append, ha, hq]
  exact hgen data [] (by simp)

theorem createTreeAux_split [LinearOrder G] (dep : String)
    (values : String → List String) (gain : Subset → String → G)
    (ps : Option Subset) (s : Subset) (pv : Option String) (a0 : String)
    (as1 : List String) (h0 : attrCounts s dep ≠ [])
    (h1 : (attrCounts s dep).length ≠ 1) :
    createTreeAux dep values gain ps s pv (a0 :: as1) =
      (do
        let cs ← createChildren dep values gain s
          (pyMaxBy (a0, gain s a0) (as1.map (fun a => (a, gain s a)))).1
          ((a0 :: as1).erase
            (pyMaxBy (a0, gain s a0) (as1.map (fun a => (a, gain s a)))).1)
          (values (pyMaxBy (a0, gain s a0) (as1.map (fun a => (a, gain s a)))).1)
        return .mk (pyMaxBy (a0, gain s a0) (as1.map (fun a => (a, gain s a)))).1
          pv (.informationGain
            (pyMaxBy (a0, gain s a0) (as1.map (fun a => (a, gain s a)))).2)
          false cs) := by
  rw [createTreeAux.eq_def]
  simp only [if_neg h0, if_neg h1]

theorem createTreeAux_pure [LinearOrder G] (dep : String)
    (values : String → List String) (gain : Subset → String → G)
    (ps : Option Subset) (s : Subset) (pv : Option String)
    (remaining : List String) (h0 : attrCounts s dep ≠ [])
    (h1 : (attrCounts s dep).length = 1) :
    createTreeAux dep values gain ps s pv remaining =
      .ok (.mk (attrCounts s dep).headI.1 pv .empty true []) := by
  rw [createTreeAux.eq_def]
  simp only [if_neg h0, if_pos h1]

theorem createTreeAux_exhausted [LinearOrder G] (dep : String)
    (values : String → List String) (gain : Subset → String → G)
    (ps : Option Subset) (s : Subset) (pv : Option String)
    (h0 : attrCounts s dep ≠ []) (h1 : (attrCounts s dep).length ≠ 1) :
    createTreeAux dep values gain ps s pv [] =
      estimatedLeaf (attrCounts s dep) pv := by
  rw [createTreeAux.eq_def]
  simp only [if_neg h0, if_neg h1]

theorem createTreeAux_fallback_none [LinearOrder G] (dep : String)
    (values : String → List String) (gain : Subset → String → G)
    (pv : Option String) (remaining : List String) :
    createTreeAux dep values gain none [] pv remaining = .error .emptyDomain := by
  rw [createTreeAux.eq_def]
  simp [attrCounts]

theorem createTreeAux_fallback_some [LinearOrder G] (dep : String)
    (values : String → List String) (gain : Subset → String → G) (p : Subset)
    (pv : Option String) (remaining : List String) :
    createTreeAux dep values gain (some p) [] pv remaining =
      (if (attrCounts p dep).length = 1 then
        .ok (.mk (attrCounts p dep).headI.1 pv .empty true [])
      else estimatedLeaf (attrCounts p dep) pv) := by
  rw [createTreeAux.eq_def]
  simp [attrCounts]

theorem createChildren_nil [LinearOrder G] (dep : String)
    (values : String → List String) (gain : Subset → String → G) (s : Subset)
    (lab : String) (newRem : List String) :
    createChildren dep values gain s lab newRem [] = .ok [] := by
  rw [createChildren.eq_def]

theorem createChildren_cons [LinearOrder G] (dep : String)
    (values : String → List String) (gain : Subset → String → G) (s : Subset)
    (lab : String) (newRem : List String) (v : String) (vs : List String) :
    createChildren dep values gain s lab newRem (v :: vs) =
      (do
        let c ← createTreeAux dep values gain (some s) (filterSubset s lab v)
          (some v) newRem
        let rest ← createChildren dep values gain s lab newRem vs
        return c :: rest) := by
  rw [createChildren.eq_def]

theorem estimatedLeaf_total (counts : List (String × Nat)) (pv : Option String)
    (h : counts ≠ []) :
    ∃ t : DTreeNode G, estimatedLeaf counts pv = .ok t := by
  cases counts with
  | nil => exact absurd rfl h
  | cons c cs => exact ⟨_, rfl⟩

theorem createTreeAux_total [LinearOrder G] (dep : String)
    (values : String → List String) (gain : Subset → String → G) :
    ∀ (n : Nat) (remaining : List String), remaining.length ≤ n →
      ∀ (ps : Option Subset) (s : Subset) (pv : Option String),
        (s ≠ [] ∨ ∃ p, ps = some p ∧ p ≠ []) →
        ∃ t, createTreeAux dep values gain ps s pv remaining = .ok t := by
  intro n
  induction n with
  | zero =>
    intro remaining hlen ps s pv hyp
    have hrem : remaining = [] := List.length_eq_zero.mp (Nat.le_zero.mp hlen)
    subst hrem
    by_cases h0 : attrCounts s dep = []
    · have hs : s = [] := (attrCounts_eq_nil_iff s dep).mp h0
      subst hs
      rcases hyp with hs | ⟨p, hps, hp⟩
      · exact absurd rfl hs
      · subst hps
        rw [createTreeAux_fallback_some]
        by_cases hl : (attrCounts p dep).length = 1
        · exact ⟨_, by rw [if_pos hl]⟩
        · rw [if_neg hl]
          exact estimatedLeaf_total _ _ ((attrCounts_eq_nil_iff p dep).not.mpr hp)
    · by_cases hl : (attrCounts s dep).length = 1
      · exact ⟨_, createTreeAux_pure dep values gain ps s pv [] h0 hl⟩
      · rw [createTreeAux_exhausted dep values gain ps s pv h0 hl]
        exact estimatedLeaf_total _ _ h0
  | succ n ih =>
    intro remaining hlen ps s pv hyp
    by_cases h0 : attrCounts s dep = []
    · have hs : s = [] := (attrCounts_eq_nil_iff s dep).mp h0
      subst hs
      rcases hyp with hs | ⟨p, hps, hp⟩
      · exact absurd rfl hs
      · subst hps
        rw [createTreeAux_fallback_some]
        by_cases hl : (attrCounts p dep).length = 1
        · exact ⟨_, by rw [if_pos hl]⟩
        · rw [if_neg hl]
          exact estimatedLeaf_total _ _ ((attrCounts_eq_nil_iff p dep).not.mpr hp)
    · by_cases hl : (attrCounts s dep).length = 1
      · exact ⟨_, createTreeAux_pure dep values gain ps s pv remaining h0 hl⟩
      · cases remaining with
        | nil =>
          rw [createTreeAux_exhausted dep values gain ps s pv h0 hl]
          exact estimatedLeaf_total _ _ h0
        | cons a0 as1 =>
          have hs : s ≠ [] := fun he => h0 (by rw [he]; rfl)
          have hmem := pyMaxBy_map_fst_mem (gain s) a0 as1
          have hnewlen :
              ((a0 :: as1).erase
                (pyMaxBy (a0, gain s a0) (as1.map (fun a => (a, gain s a)))).1).length ≤ n := by
            rw [List.length_erase_of_mem hmem]
            simp only [List.length_cons]
            simp only [List.length_cons] at hlen
            omega
          have hch : ∀ vs : List String,
              ∃ cs, createChildren dep values gain s
                (pyMaxBy (a0, gain s a0) (as1.map (fun a => (a, gain s a)))).1
                ((a0 :: as1).erase
                  (pyMaxBy (a0, gain s a0) (as1.map (fun a => (a, gain s a)))).1)
                vs = .ok cs := by
            intro vs
            induction vs with
            | nil => exact ⟨[], createChildren_nil _ _ _ _ _ _⟩
            | cons v vs ihv =>
              rcases ih _ hnewlen (some s) _ (some v) (Or.inr ⟨s, rfl, hs⟩) with ⟨c, hc⟩
              rcases ihv with ⟨cs, hcs⟩
              refine ⟨c :: cs, ?_⟩
              rw [createChildren_cons, hc, hcs]
              rfl
          rcases hch (values
            (pyMaxBy (a0, gain s a0) (as1.map (fun a => (a, gain s a)))).1) with ⟨cs, hcs⟩
          refine ⟨DTreeNode.mk
            (pyMaxBy (a0, gain s a0) (as1.map (fun a => (a, gain s a)))).1 pv
            (.informationGain
              (pyMaxBy (a0, gain s a0) (as1.map (fun a => (a, gain s a)))).2)
            false cs, ?_⟩
          rw [createTreeAux_split dep values gain ps s pv a0 as1 h0 hl, hcs]
          rfl

theorem estimatedLeaf_ok_leaf (counts : List (String × Nat)) (pv : Option String)
    (t : DTreeNode G) (h : estimatedLeaf counts pv = .ok t) : t.leaf = true := by
  cases counts with
  | nil => exact absurd h (by simp [estimatedLeaf])
  | cons c cs =>
    simp only [estimatedLeaf, Except.ok.injEq] at h
    rw [← h]
    rfl

/-- C9: for every dataset in which some independent attribute has zero
observed values (with total-function rows this happens exactly when the
dataset has no rows), `build` fails with the `EmptyDomainError`
(the `TypeError` raised by iterating the `None` parent subset at the root)
rather than returning a tree. -/
theorem C9_empty_domain_error [LinearOrder G] (gain : Subset → String → G)
    (data : Subset) (attrs : List String) (dep : String)
    (h : ∃ a ∈ attrs, distinctValues data a = []) :
    build gain data attrs dep = .error .emptyDomain := by
  rcases h with ⟨a, _, ha⟩
  have hd : data = [] := (distinctValues_eq_nil_iff data a).mp ha
  subst hd
  exact createTreeAux_fallback_none dep (distinctValues []) gain none attrs

/-- Witness for C9: the empty dataset with one independent attribute. -/
theorem C9_empty_domain_error_witness :
    build (fun _ _ => (0 : ℚ)) [] ["A"] "D" = .error .emptyDomain :=
  C9_empty_domain_error (fun _ _ => (0 : ℚ)) [] ["A"] "D" ⟨"A", by simp, rfl⟩

/-- C3: for every dataset and dependent attribute, `build` either returns a
complete tree (the recursion is total on every non-empty dataset, so no
failure can interrupt construction after the root is made) or raises the
`EmptyDomainError` before any node exists; no partial tree is exposed. -/
theorem C3_build_complete_or_error [LinearOrder G] (gain : Subset → String → G)
    (data : Subset) (attrs : List String) (dep : String) :
    (data ≠ [] → ∃ t, build gain data attrs dep = .ok t) ∧
    (data = [] → build gain data attrs dep = .error .emptyDomain) := by
  constructor
  · intro hd
    exact createTreeAux_total dep (distinctValues data) gain attrs.length attrs
      le_rfl none data none (Or.inl hd)
  · intro hd
    subst hd
    exact createTreeAux_fallback_none dep (distinctValues []) gain none attrs

/-- Witness for C3 at the weather dataset and at the empty dataset. -/
theorem C3_build_complete_or_error_witness :
    (∃ t, build (fun _ _ => (0 : ℚ)) weatherData ["Weather"] "Play" = .ok t) ∧
    build (fun _ _ => (0 : ℚ)) [] ["Weather"] "Play" = .error .emptyDomain :=
  ⟨(C3_build_complete_or_error (fun _ _ => (0 : ℚ)) weatherData ["Weather"] "Play").1
      (by simp [weatherData]),
   (C3_build_complete_or_error (fun _ _ => (0 : ℚ)) [] ["Weather"] "Play").2 rfl⟩

/-- C2: (first conjunct) at every recursive build step whose filtered subset
is empty, with a parent subset that is not pure (which holds whenever a parent
actually recursed, by the second conjunct), the resulting child is a leaf
labeled with the majority dependent value of the parent's subset and its
diagnostics carry `estimated = true`; (second conjunct) every internal node's
subset — the parent subset passed to its children — has at least two distinct
dependent values. -/
theorem C2_empty_subset_estimated_leaf [LinearOrder G] (dep : String)
    (values : String → List String) (gain : Subset → String → G) :
    (∀ (ps : Subset) (pv : Option String) (remaining : List String),
      2 ≤ (attrCounts ps dep).length →
      ∃ c cs, attrCounts ps dep = c :: cs ∧
        createTreeAux dep values gain (some ps) [] pv remaining =
          .ok (.mk (pyMaxBy c cs).1 pv .estimated true []) ∧
        ∀ y ∈ attrCounts ps dep, y.2 ≤ (pyMaxBy c cs).2) ∧
    (∀ (ps : Option Subset) (s : Subset) (pv : Option String)
        (remaining : List String) (t : DTreeNode G),
      createTreeAux dep values gain ps s pv remaining = .ok t →
      t.leaf = false → 2 ≤ (attrCounts s dep).length) := by
  constructor
  · intro ps pv remaining h2
    have hne : attrCounts ps dep ≠ [] := by
      intro he
      rw [he] at h2
      simp at h2
    have hl : (attrCounts ps dep).length ≠ 1 := by omega
    rcases hc : attrCounts ps dep with _ | ⟨c, cs⟩
    · exact absurd hc hne
    · refine ⟨c, cs, rfl, ?_, ?_⟩
      · rw [createTreeAux_fallback_some, hc, if_neg (hc ▸ hl)]
        rfl
      · exact pyMaxBy_le c cs
  · intro ps s pv remaining t hok hleaf
    by_cases h0 : attrCounts s dep = []
    · have hs : s = [] := (attrCounts_eq_nil_iff s dep).mp h0
      subst hs
      cases ps with
      | none =>
        rw [createTreeAux_fallback_none] at hok
        exact absurd hok (by simp)
      | some p =>
        rw [createTreeAux_fallback_some] at hok
        by_cases hl : (attrCounts p dep).length = 1
        · rw [if_pos hl] at hok
          simp only [Except.ok.injEq] at hok
          rw [← hok] at hleaf
          exact absurd hleaf (by simp [DTreeNode.leaf])
        · rw [if_neg hl] at hok
          have hlf := estimatedLeaf_ok_leaf _ _ _ hok
          rw [hlf] at hleaf
          exact Bool.noConfusion hleaf
    · by_cases hl : (attrCounts s dep).length = 1
      · rw [createTreeAux_pure dep values gain ps s pv remaining h0 hl] at hok
        simp only [Except.ok.injEq] at hok
        rw [← hok] at hleaf
        exact absurd hleaf (by simp [DTreeNode.leaf])
      · have hpos : 0 < (attrCounts s dep).length := List.length_pos.mpr h0
        omega

/-- Witness for C2: a parent subset with two dependent classes and an empty
filtered child subset. -/
theorem C2_empty_subset_estimated_leaf_witness :
    ∃ c cs, attrCounts exData "D" = c :: cs ∧
      createTreeAux "D" (fun _ => ["x", "y", "z"]) (fun _ _ => (0 : ℚ))
        (some exData) [] (some "z") ["A"] =
        .ok (.mk (pyMaxBy c cs).1 (some "z") .estimated true []) ∧
      ∀ y ∈ attrCounts exData "D", y.2 ≤ (pyMaxBy c cs).2 :=
  (C2_empty_subset_estimated_leaf "D" (fun _ => ["x", "y", "z"])
    (fun _ _ => (0 : ℚ))).1 exData (some "z") ["A"] (by decide)

theorem createChildren_total [LinearOrder G] (dep : String)
    (values : String → List String) (gain : Subset → String → G) (s : Subset)
    (lab : String) (newRem : List String) (hs : s ≠ []) :
    ∀ vs, ∃ cs, createChildren dep values gain s lab newRem vs = .ok cs := by
  intro vs
  induction vs with
  | nil => exact ⟨[], createChildren_nil _ _ _ _ _ _⟩
  | cons v vs ihv =>
    rcases createTreeAux_total dep values gain newRem.length newRem le_rfl
      (some s) (filterSubset s lab v) (some v) (Or.inr ⟨s, rfl, hs⟩) with ⟨c, hc⟩
    rcases ihv with ⟨cs, hcs⟩
    refine ⟨c :: cs, ?_⟩
    rw [createChildren_cons, hc, hcs]
    rfl

theorem pyMaxBy_pairs_shape [LinearOrder G] (g : String → G) (a0 : String)
    (as1 : List String) :
    ∀ y ∈ (a0, g a0) :: as1.map (fun a => (a, g a)), y.2 = g y.1 := by
  intro y hy
  rcases List.mem_cons.mp hy with h1 | h2
  · rw [h1]
  · rcases List.mem_map.mp h2 with ⟨a, _, he⟩
    rw [← he]

/-- C5: at every split step (non-empty, non-pure subset, at least one unused
attribute, `remaining` listed in attribute order as a sublist of the full
attribute list), the new internal node is labeled with the unused attribute
`w` of maximum gain over the subset, records `w`'s gain in its
`information_gain` diagnostic, and ties are broken by taking the first such
attribute: every attribute strictly before `w` in `remaining` has strictly
smaller gain, and every other attribute of maximal gain sits after `w` in the
full attribute order. -/
theorem C5_split_selects_max_gain [LinearOrder G] (dep : String)
    (values : String → List String) (gain : Subset → String → G)
    (ps : Option Subset) (s : Subset) (pv : Option String)
    (a0 : String) (as1 : List String) (attrs : List String)
    (h0 : attrCounts s dep ≠ []) (h1 : (attrCounts s dep).length ≠ 1)
    (hsub : (a0 :: as1).Sublist attrs) :
    ∃ w cs,
      createTreeAux dep values gain ps s pv (a0 :: as1) =
        .ok (.mk w pv (.informationGain (gain s w)) false cs) ∧
      w ∈ a0 :: as1 ∧
      (∀ b ∈ a0 :: as1, gain s b ≤ gain s w) ∧
      (∃ l1 l2, a0 :: as1 = l1 ++ w :: l2 ∧ ∀ b ∈ l1, gain s b < gain s w) ∧
      (∃ A1 A2, attrs = A1 ++ w :: A2 ∧
        ∀ b ∈ a0 :: as1, gain s b = gain s w → b ≠ w → b ∈ A2) := by
  have hs : s ≠ [] := fun he => h0 (by rw [he]; rfl)
  have hsnd := pyMaxBy_map_snd (gain s) a0 as1
  have hmem := pyMaxBy_map_fst_mem (gain s) a0 as1
  rcases createChildren_total dep values gain s
    (pyMaxBy (a0, gain s a0) (as1.map (fun a => (a, gain s a)))).1
    ((a0 :: as1).erase
      (pyMaxBy (a0, gain s a0) (as1.map (fun a => (a, gain s a)))).1) hs
    (values (pyMaxBy (a0, gain s a0) (as1.map (fun a => (a, gain s a)))).1)
    with ⟨cs, hcs⟩
  refine ⟨(pyMaxBy (a0, gain s a0) (as1.map (fun a => (a, gain s a)))).1, cs,
    ?_, hmem, ?_, ?_, ?_⟩
  · rw [createTreeAux_split dep values gain ps s pv a0 as1 h0 h1, hcs, ← hsnd]
    rfl
  · intro b hb
    have hpair : (b, gain s b) ∈
        (a0, gain s a0) :: as1.map (fun a => (a, gain s a)) := by
      rcases List.mem_cons.mp hb with h1 | h2
      · rw [h1]
        exact List.mem_cons_self _ _
      · exact List.mem_cons_of_mem _ (List.mem_map.mpr ⟨b, h2, rfl⟩)
    have := pyMaxBy_le (a0, gain s a0) (as1.map (fun a => (a, gain s a)))
      (b, gain s b) hpair
    rw [hsnd] at this
    exact this
  · rcases pyMaxBy_first (a0, gain s a0) (as1.map (fun a => (a, gain s a)))
      with ⟨L1, L2, heq, hlt⟩
    refine ⟨L1.map Prod.fst, L2.map Prod.fst, ?_, ?_⟩
    · have hfst : ((a0, gain s a0) ::
          as1.map (fun a => (a, gain s a))).map Prod.fst = a0 :: as1 := by
        simp only [List.map_cons, List.map_map]
        have hcomp : (Prod.fst ∘ fun a : String => (a, gain s a)) = id := by
          funext x
          rfl
        rw [hcomp, List.map_id]
      rw [← hfst, heq]
      simp
    · intro b hb
      rcases List.mem_map.mp hb with ⟨y, hy, hyb⟩
      have hyin : y ∈ (a0, gain s a0) :: as1.map (fun a => (a, gain s a)) := by
        rw [heq]
        exact List.mem_append_left _ hy
      have hy2 := pyMaxBy_pairs_shape (gain s) a0 as1 y hyin
      have := hlt y hy
      rw [hy2, hyb, hsnd] at this
      exact this
  · rcases pyMaxBy_first (a0, gain s a0) (as1.map (fun a => (a, gain s a)))
      with ⟨L1, L2, heq, hlt⟩
    have hfst : ((a0, gain s a0) ::
        as1.map (fun a => (a, gain s a))).map Prod.fst = a0 :: as1 := by
      simp only [List.map_cons, List.map_map]
      have hcomp : (Prod.fst ∘ fun a : String => (a, gain s a)) = id := by
        funext x
        rfl
      rw [hcomp, List.map_id]
    have hdec : a0 :: as1 = L1.map Prod.fst ++
        (pyMaxBy (a0, gain s a0) (as1.map (fun a => (a, gain s a)))).1 ::
          L2.map Prod.fst := by
      rw [← hfst, heq]
      simp
    rw [hdec] at hsub
    rcases List.append_sublist_iff.mp hsub with ⟨r1, r2, hr, _, hwl2⟩
    rcases List.cons_sublist_iff.mp hwl2 with ⟨s1, s2, hs12, hws1, hl2s2⟩
    rcases List.append_of_mem hws1 with ⟨t1, t2, ht⟩
    refine ⟨r1 ++ t1, t2 ++ s2, ?_, ?_⟩
    · rw [hr, hs12, ht]
      simp
    · intro b hb hbg hbw
      rw [hdec] at hb
      rcases List.mem_append.mp hb with hbl1 | hbr
      · exfalso
        rcases List.mem_map.mp hbl1 with ⟨y, hy, hyb⟩
        have hyin : y ∈ (a0, gain s a0) :: as1.map (fun a => (a, gain s a)) := by
          rw [heq]
          exact List.mem_append_left _ hy
        have hy2 := pyMaxBy_pairs_shape (gain s) a0 as1 y hyin
        have hylt := hlt y hy
        rw [hy2, hyb, hsnd] at hylt
        rw [hbg] at hylt
        exact lt_irrefl _ hylt
      · rcases List.mem_cons.mp hbr with hbw2 | hbl2
        · exact absurd hbw2 hbw
        · have hbs2 : b ∈ s2 := hl2s2.subset hbl2
          exact List.mem_append_right _ hbs2

/-- Witness for C5: two unused attributes where the second has strictly more
gain over a two-class subset. -/
theorem C5_split_selects_max_gain_witness :
    ∃ w cs,
      createTreeAux "D" (fun _ => ["x", "y"])
        (fun _ a => if a = "B" then (1 : ℚ) else 0) none exData none
        ("A" :: ["B"]) =
        .ok (.mk w none
          (.informationGain ((fun (_ : Subset) a => if a = "B" then (1 : ℚ) else 0) exData w))
          false cs) ∧
      w ∈ "A" :: ["B"] ∧
      (∀ b ∈ "A" :: ["B"],
        (if b = "B" then (1 : ℚ) else 0) ≤ (if w = "B" then (1 : ℚ) else 0)) ∧
      (∃ l1 l2, "A" :: ["B"] = l1 ++ w :: l2 ∧
        ∀ b ∈ l1, (if b = "B" then (1 : ℚ) else 0) < (if w = "B" then (1 : ℚ) else 0)) ∧
      (∃ A1 A2, ["A", "B"] = A1 ++ w :: A2 ∧
        ∀ b ∈ "A" :: ["B"],
          (if b = "B" then (1 : ℚ) else 0) = (if w = "B" then (1 : ℚ) else 0) →
          b ≠ w → b ∈ A2) :=
  C5_split_selects_max_gain "D" (fun _ => ["x", "y"])
    (fun _ a => if a = "B" then (1 : ℚ) else 0) none exData none "A" ["B"]
    ["A", "B"] (by decide) (by decide) (by decide)

/-- The structural facts the invariants need about one node of a built tree:
a leaf has no children; an internal node has one child per domain value of
its label, in domain order, and carries an `information_gain` diagnostic. -/
def goodNode (values : String → List String) (n : DTreeNode G) : Prop :=
  (n.leaf = true → n.children = []) ∧
  (n.leaf = false →
    n.children.map DTreeNode.parent_value = (values n.label).map some ∧
    ∃ g, n.props = NodeProps.informationGain g)

theorem createTreeAux_ok_inv [LinearOrder G] (dep : String)
    (values : String → List String) (gain : Subset → String → G)
    (ps : Option Subset) (s : Subset) (pv : Option String)
    (remaining : List String) (t : DTreeNode G)
    (h : createTreeAux dep values gain ps s pv remaining = .ok t) :
    (∃ lab pr, t = .mk lab pv pr true []) ∨
    (∃ a0 as1 cs, remaining = a0 :: as1 ∧
      attrCounts s dep ≠ [] ∧ (attrCounts s dep).length ≠ 1 ∧
      t = .mk (pyMaxBy (a0, gain s a0) (as1.map (fun a => (a, gain s a)))).1 pv
        (.informationGain
          (pyMaxBy (a0, gain s a0) (as1.map (fun a => (a, gain s a)))).2)
        false cs ∧
      createChildren dep values gain s
        (pyMaxBy (a0, gain s a0) (as1.map (fun a => (a, gain s a)))).1
        ((a0 :: as1).erase
          (pyMaxBy (a0, gain s a0) (as1.map (fun a => (a, gain s a)))).1)
        (values (pyMaxBy (a0, gain s a0)
          (as1.map (fun a => (a, gain s a)))).1) = .ok cs) := by
  by_cases h0 : attrCounts s dep = []
  · have hs : s = [] := (attrCounts_eq_nil_iff s dep).mp h0
    subst hs
    cases ps with
    | none =>
      rw [createTreeAux_fallback_none] at h
      exact absurd h (by simp)
    | some p =>
      rw [createTreeAux_fallback_some] at h
      by_cases hl : (attrCounts p dep).length = 1
      · rw [if_pos hl] at h
        simp only [Except.ok.injEq] at h
        exact Or.inl ⟨_, _, h.symm⟩
      · rw [if_neg hl] at h
        cases hc : attrCounts p dep with
        | nil =>
          rw [hc] at h
          exact absurd h (by simp [estimatedLeaf])
        | cons c cs =>
          rw [hc] at h
          simp only [estimatedLeaf, Except.ok.injEq] at h
          exact Or.inl ⟨_, _, h.symm⟩
  · by_cases hl : (attrCounts s dep).length = 1
    · rw [createTreeAux_pure dep values gain ps s pv remaining h0 hl] at h
      simp only [Except.ok.injEq] at h
      exact Or.inl ⟨_, _, h.symm⟩
    · cases remaining with
      | nil =>
        rw [createTreeAux_exhausted dep values gain ps s pv h0 hl] at h
        cases hc : attrCounts s dep with
        | nil => exact absurd hc h0
        | cons c cs =>
          rw [hc] at h
          simp only [estimatedLeaf, Except.ok.injEq] at h
          exact Or.inl ⟨_, _, h.symm⟩
      | cons a0 as1 =>
        rw [createTreeAux_split dep values gain ps s pv a0 as1 h0 hl] at h
        cases hch : createChildren dep values gain s
            (pyMaxBy (a0, gain s a0) (as1.map (fun a => (a, gain s a)))).1
            ((a0 :: as1).erase
              (pyMaxBy (a0, gain s a0) (as1.map (fun a => (a, gain s a)))).1)
            (values (pyMaxBy (a0, gain s a0)
              (as1.map (fun a => (a, gain s a)))).1) with
        | error e =>
          rw [hch] at h
          have h2 : (Except.error e : Except BuildErr (DTreeNode G)) = Except.ok t := h
          exact absurd h2 (by simp)
        | ok cs =>
          rw [hch] at h
          have h2 : Except.ok (ε := BuildErr) (DTreeNode.mk
              (pyMaxBy (a0, gain s a0) (as1.map (fun a => (a, gain s a)))).1 pv
              (.informationGain
                (pyMaxBy (a0, gain s a0) (as1.map (fun a => (a, gain s a)))).2)
              false cs) = Except.ok t := h
          simp only [Except.ok.injEq] at h2
          exact Or.inr ⟨a0, as1, cs, rfl, h0, hl, h2.symm, hch⟩

theorem createTreeAux_ok_parent_value [LinearOrder G] (dep : String)
    (values : String → List String) (gain : Subset → String → G)
    (ps : Option Subset) (s : Subset) (pv : Option String)
    (remaining : List String) (t : DTreeNode G)
    (h : createTreeAux dep values gain ps s pv remaining = .ok t) :
    t.parent_value = pv := by
  rcases createTreeAux_ok_inv dep values gain ps s pv remaining t h with
    ⟨lab, pr, rfl⟩ | ⟨a0, as1, cs, _, _, _, rfl, _⟩
  · rfl
  · rfl

theorem createChildren_ok_inv [LinearOrder G] (dep : String)
    (values : String → List String) (gain : Subset → String → G) (s : Subset)
    (lab : String) (newRem : List String) :
    ∀ (vs : List String) (cs : List (DTreeNode G)),
      createChildren dep values gain s lab newRem vs = .ok cs →
      cs.map DTreeNode.parent_value = vs.map some ∧
      ∀ c ∈ cs, ∃ v ∈ vs,
        createTreeAux dep values gain (some s) (filterSubset s lab v) (some v)
          newRem = .ok c := by
  intro vs
  induction vs with
  | nil =>
    intro cs h
    rw [createChildren_nil] at h
    simp only [Except.ok.injEq] at h
    subst h
    exact ⟨rfl, by simp⟩
  | cons v vs ihv =>
    intro cs h
    rw [createChildren_cons] at h
    cases hc : createTreeAux dep values gain (some s) (filterSubset s lab v)
        (some v) newRem with
    | error e =>
      rw [hc] at h
      exact absurd h (by simp [Bind.bind, Except.bind])
    | ok c =>
      rw [hc] at h
      cases hrest : createChildren dep values gain s lab newRem vs with
      | error e =>
        rw [hrest] at h
        exact absurd h (by simp [Bind.bind, Except.bind])
      | ok rest =>
        rw [hrest] at h
        have h2 : Except.ok (ε := BuildErr) (c :: rest) = Except.ok cs := h
        simp only [Except.ok.injEq] at h2
        subst h2
        rcases ihv rest hrest with ⟨hmap, hmem⟩
        constructor
        · simp only [List.map_cons, hmap,
            createTreeAux_ok_parent_value dep values gain (some s) _ (some v)
              newRem c hc]
        · intro x hx
          rcases List.mem_cons.mp hx with h1 | h2
          · exact ⟨v, List.mem_cons_self _ _, h1 ▸ hc⟩
          · rcases hmem x h2 with ⟨w, hw, hww⟩
            exact ⟨w, List.mem_cons_of_mem _ hw, hww⟩

theorem mem_allNodesList (m : DTreeNode G) :
    ∀ cs : List (DTreeNode G), m ∈ allNodesList cs ↔ ∃ c ∈ cs, m ∈ allNodes c := by
  intro cs
  induction cs with
  | nil => simp [allNodesList]
  | cons c cs ih =>
    rw [allNodesList]
    simp only [List.mem_append, ih]
    constructor
    · intro h
      rcases h with h1 | ⟨d, hd, hm⟩
      · exact ⟨c, List.mem_cons_self _ _, h1⟩
      · exact ⟨d, List.mem_cons_of_mem _ hd, hm⟩
    · intro ⟨d, hd, hm⟩
      rcases List.mem_cons.mp hd with h1 | h2
      · exact Or.inl (h1 ▸ hm)
      · exact Or.inr ⟨d, h2, hm⟩

theorem createTreeAux_invariant [LinearOrder G] (dep : String)
    (values : String → List String) (gain : Subset → String → G) :
    ∀ (n : Nat) (remaining : List String), remaining.length ≤ n →
      ∀ (ps : Option Subset) (s : Subset) (pv : Option String) (t : DTreeNode G),
        createTreeAux dep values gain ps s pv remaining = .ok t →
        ∀ m ∈ allNodes t, goodNode values m := by
  intro n
  induction n with
  | zero =>
    intro remaining hlen ps s pv t h m hm
    have hrem : remaining = [] := List.length_eq_zero.mp (Nat.le_zero.mp hlen)
    subst hrem
    rcases createTreeAux_ok_inv dep values gain ps s pv [] t h with
      ⟨lab, pr, rfl⟩ | ⟨a0, as1, cs, habs, _⟩
    · rw [allNodes] at hm
      rcases List.mem_cons.mp hm with h1 | h2
      · subst h1
        exact ⟨fun _ => rfl, fun hf => absurd hf (by simp [DTreeNode.leaf])⟩
      · exact absurd h2 (by simp [allNodesList])
    · exact absurd habs (by simp)
  | succ n ih =>
    intro remaining hlen ps s pv t h m hm
    rcases createTreeAux_ok_inv dep values gain ps s pv remaining t h with
      ⟨lab, pr, rfl⟩ | ⟨a0, as1, cs, hrem, h0, hl, rfl, hch⟩
    · rw [allNodes] at hm
      rcases List.mem_cons.mp hm with h1 | h2
      · subst h1
        exact ⟨fun _ => rfl, fun hf => absurd hf (by simp [DTreeNode.leaf])⟩
      · exact absurd h2 (by simp [allNodesList])
    · subst hrem
      rcases createChildren_ok_inv dep values gain s _ _ _ cs hch with ⟨hmap, hmem⟩
      rw [allNodes] at hm
      rcases List.mem_cons.mp hm with h1 | h2
      · subst h1
        refine ⟨fun hf => absurd hf (by simp [DTreeNode.leaf]), fun _ => ⟨hmap, ⟨_, rfl⟩⟩⟩
      · rcases (mem_allNodesList m cs).mp h2 with ⟨c, hc, hmc⟩
        rcases hmem c hc with ⟨v, _, hcv⟩
        have hmemw := pyMaxBy_map_fst_mem (gain s) a0 as1
        have hnewlen : ((a0 :: as1).erase
            (pyMaxBy (a0, gain s a0) (as1.map (fun a => (a, gain s a)))).1).length ≤ n := by
          rw [List.length_erase_of_mem hmemw]
          simp only [List.length_cons]
          simp only [List.length_cons] at hlen
          omega
        exact ih _ hnewlen (some s) _ (some v) c hcv m hmc

/-- C7: in every tree produced by `build`, a leaf node has zero children, and
an internal node labeled with attribute `a` has exactly one child per value in
`a`'s full domain (the distinct values over the whole dataset), with each
child's `parent_value` unique among its siblings. -/
theorem C7_children_one_per_domain_value [LinearOrder G]
    (gain : Subset → String → G) (data : Subset) (attrs : List String)
    (dep : String) (t : DTreeNode G)
    (hb : build gain data attrs dep = .ok t) :
    ∀ m ∈ allNodes t,
      (m.leaf = true → m.children = []) ∧
      (m.leaf = false →
        (∀ v, some v ∈ m.children.map DTreeNode.parent_value ↔
          v ∈ distinctValues data m.label) ∧
        (m.children.map DTreeNode.parent_value).Nodup) := by
  intro m hm
  rcases createTreeAux_invariant dep (distinctValues data) gain attrs.length
    attrs le_rfl none data none t hb m hm with ⟨hleaf, hint⟩
  refine ⟨hleaf, fun hlf => ?_⟩
  rcases hint hlf with ⟨hmap, _⟩
  constructor
  · intro v
    rw [hmap]
    constructor
    · intro hv
      rcases List.mem_map.mp hv with ⟨w, hw, he⟩
      have : w = v := by injection he
      exact this ▸ hw
    · intro hv
      exact List.mem_map.mpr ⟨v, hv, rfl⟩
  · rw [hmap]
    exact (distinctValues_nodup data m.label).map (Option.some_injective String)

/-- The tree `build` produces on the spec's weather scenario (children in
first-occurrence domain order: Sunny then Rainy). -/
def weatherTree : DTreeNode ℚ :=
  .mk "Weather" none (.informationGain 0) false
    [.mk "Yes" (some "Sunny") .empty true [],
     .mk "No" (some "Rainy") .empty true []]

unseal createTreeAux createChildren in
theorem weatherBuild_eq :
    build (fun _ _ => (0 : ℚ)) weatherData ["Weather"] "Play" = .ok weatherTree := rfl

/-- Witness for C7 at the root of the weather tree. -/
theorem C7_children_one_per_domain_value_witness :
    (weatherTree.leaf = true → weatherTree.children = []) ∧
    (weatherTree.leaf = false →
      (∀ v, some v ∈ weatherTree.children.map DTreeNode.parent_value ↔
        v ∈ distinctValues weatherData weatherTree.label) ∧
      (weatherTree.children.map DTreeNode.parent_value).Nodup) :=
  C7_children_one_per_domain_value (fun _ _ => (0 : ℚ)) weatherData ["Weather"]
    "Play" weatherTree weatherBuild_eq weatherTree (List.mem_cons_self _ _)

theorem faCreateTreeAux_fallback_none (dep : String)
    (values : String → List String) (pv : Option String)
    (remaining : List String) :
    faCreateTreeAux dep values none [] pv remaining = .error .emptyDomain := by
  rw [faCreateTreeAux.eq_def]
  simp [attrCounts]

theorem faCreateTreeAux_fallback_some (dep : String)
    (values : String → List String) (p : Subset) (pv : Option String)
    (remaining : List String) :
    faCreateTreeAux dep values (some p) [] pv remaining =
      (if (attrCounts p dep).length = 1 then
        .ok (.mk (attrCounts p dep).headI.1 pv .empty true [])
      else estimatedLeaf (attrCounts p dep) pv) := by
  rw [faCreateTreeAux.eq_def]
  simp [attrCounts]

theorem faCreateTreeAux_pure (dep : String) (values : String → List String)
    (ps : Option Subset) (s : Subset) (pv : Option String)
    (remaining : List String) (h0 : attrCounts s dep ≠ [])
    (h1 : (attrCounts s dep).length = 1) :
    faCreateTreeAux dep values ps s pv remaining =
      .ok (.mk (attrCounts s dep).headI.1 pv .empty true []) := by
  rw [faCreateTreeAux.eq_def]
  simp only [if_neg h0, if_pos h1]

theorem faCreateTreeAux_exhausted (dep : String)
    (values : String → List String) (ps : Option Subset) (s : Subset)
    (pv : Option String) (h0 : attrCounts s dep ≠ [])
    (h1 : (attrCounts s dep).length ≠ 1) :
    faCreateTreeAux dep values ps s pv [] =
      estimatedLeaf (attrCounts s dep) pv := by
  rw [faCreateTreeAux.eq_def]
  simp only [if_neg h0, if_neg h1]

theorem faCreateTreeAux_split (dep : String) (values : String → List String)
    (ps : Option Subset) (s : Subset) (pv : Option String) (a0 : String)
    (as1 : List String) (h0 : attrCounts s dep ≠ [])
    (h1 : (attrCounts s dep).length ≠ 1) :
    faCreateTreeAux dep values ps s pv (a0 :: as1) =
      (do
        let cs ← faCreateChildren dep values s
          (pyMaxBy (a0, faInformationGain values dep s a0)
            (as1.map (fun a => (a, faInformationGain values dep s a)))).1
          ((a0 :: as1).erase
            (pyMaxBy (a0, faInformationGain values dep s a0)
              (as1.map (fun a => (a, faInformationGain values dep s a)))).1)
          (values (pyMaxBy (a0, faInformationGain values dep s a0)
            (as1.map (fun a => (a, faInformationGain values dep s a)))).1)
        return .mk (pyMaxBy (a0, faInformationGain values dep s a0)
            (as1.map (fun a => (a, faInformationGain values dep s a)))).1
          pv (.informationGain
            (pyMaxBy (a0, faInformationGain values dep s a0)
              (as1.map (fun a => (a, faInformationGain values dep s a)))).2)
          false cs) := by
  rw [faCreateTreeAux.eq_def]
  simp only [if_neg h0, if_neg h1, pyStrEqIntZero, Bool.false_eq_true, if_false]

theorem faCreateChildren_nil (dep : String) (values : String → List String)
    (s : Subset) (lab : String) (newRem : List String) :
    faCreateChildren dep values s lab newRem [] = .ok [] := by
  rw [faCreateChildren.eq_def]

theorem faCreateChildren_cons (dep : String) (values : String → List String)
    (s : Subset) (lab : String) (newRem : List String) (v : String)
    (vs : List String) :
    faCreateChildren dep values s lab newRem (v :: vs) =
      (do
        let c ← faCreateTreeAux dep values (some s) (filterSubset s lab v)
          (some v) newRem
        let rest ← faCreateChildren dep values s lab newRem vs
        return c :: rest) := by
  rw [faCreateChildren.eq_def]

theorem faCreateTreeAux_eq_skeleton (dep : String)
    (values : String → List String) :
    ∀ (n : Nat) (remaining : List String), remaining.length ≤ n →
      ∀ (ps : Option Subset) (s : Subset) (pv : Option String),
        faCreateTreeAux dep values ps s pv remaining =
          createTreeAux dep values (faInformationGain values dep) ps s pv
            remaining := by
  intro n
  induction n with
  | zero =>
    intro remaining hlen ps s pv
    have hrem : remaining = [] := List.length_eq_zero.mp (Nat.le_zero.mp hlen)
    subst hrem
    by_cases h0 : attrCounts s dep = []
    · have hs : s = [] := (attrCounts_eq_nil_iff s dep).mp h0
      subst hs
      cases ps with
      | none => rw [faCreateTreeAux_fallback_none, createTreeAux_fallback_none]
      | some p => rw [faCreateTreeAux_fallback_some, createTreeAux_fallback_some]
    · by_cases hl : (attrCounts s dep).length = 1
      · rw [faCreateTreeAux_pure dep values ps s pv [] h0 hl,
          createTreeAux_pure dep values _ ps s pv [] h0 hl]
      · rw [faCreateTreeAux_exhausted dep values ps s pv h0 hl,
          createTreeAux_exhausted dep values _ ps s pv h0 hl]
  | succ n ih =>
    intro remaining hlen ps s pv
    by_cases h0 : attrCounts s dep = []
    · have hs : s = [] := (attrCounts_eq_nil_iff s dep).mp h0
      subst hs
      cases ps with
      | none => rw [faCreateTreeAux_fallback_none, createTreeAux_fallback_none]
      | some p => rw [faCreateTreeAux_fallback_some, createTreeAux_fallback_some]
    · by_cases hl : (attrCounts s dep).length = 1
      · rw [faCreateTreeAux_pure dep values ps s pv remaining h0 hl,
          createTreeAux_pure dep values _ ps s pv remaining h0 hl]
      · cases remaining with
        | nil =>
          rw [faCreateTreeAux_exhausted dep values ps s pv h0 hl,
            createTreeAux_exhausted dep values _ ps s pv h0 hl]
        | cons a0 as1 =>
          rw [faCreateTreeAux_split dep values ps s pv a0 as1 h0 hl,
            createTreeAux_split dep values _ ps s pv a0 as1 h0 hl]
          have hnewlen : ((a0 :: as1).erase
              (pyMaxBy (a0, faInformationGain values dep s a0)
                (as1.map (fun a => (a, faInformationGain values dep s a)))).1).length ≤ n := by
            rw [List.length_erase_of_mem
              (pyMaxBy_map_fst_mem (faInformationGain values dep s) a0 as1)]
            simp only [List.length_cons]
            simp only [List.length_cons] at hlen
            omega
          have hch : ∀ vs : List String,
              faCreateChildren dep values s
                (pyMaxBy (a0, faInformationGain values dep s a0)
                  (as1.map (fun a => (a, faInformationGain values dep s a)))).1
                ((a0 :: as1).erase
                  (pyMaxBy (a0, faInformationGain values dep s a0)
                    (as1.map (fun a => (a, faInformationGain values dep s a)))).1)
                vs =
              createChildren dep values (faInformationGain values dep) s
                (pyMaxBy (a0, faInformationGain values dep s a0)
                  (as1.map (fun a => (a, faInformationGain values dep s a)))).1
                ((a0 :: as1).erase
                  (pyMaxBy (a0, faInformationGain values dep s a0)
                    (as1.map (fun a => (a, faInformationGain values dep s a)))).1)
                vs := by
            intro vs
            induction vs with
            | nil => rw [faCreateChildren_nil, createChildren_nil]
            | cons v vs ihv =>
              rw [faCreateChildren_cons, createChildren_cons, ihv,
                ih _ hnewlen (some s) (filterSubset s _ v) (some v)]
          rw [hch]

/-- `FactorialAnalysis.create_tree()` equals the gain-parameterized skeleton
instantiated with `faInformationGain`: the zero-gain fallback never fires. -/
theorem faBuild_eq_build (data : Subset) (attrs : List String) (dep : String) :
    faBuild data attrs dep =
      build (faInformationGain (distinctValues data) dep) data attrs dep :=
  faCreateTreeAux_eq_skeleton dep (distinctValues data) attrs.length attrs
    le_rfl none data none

/-- C10: in the FactorialAnalysis variant the zero-gain fallback is
unreachable for string attribute names — the guard compares the selected
attribute's *name* (`max_attr[0]`) with the int `0`, which is always false in
Python 2 — so `FactorialAnalysis.create_tree` coincides with the
maximum-information-gain skeleton, and every internal node of a finished fa
tree carries an `information_gain` diagnostic and never a `max_groups` one. -/
theorem C10_fa_fallback_unreachable (data : Subset) (attrs : List String)
    (dep : String) :
    faBuild data attrs dep =
      build (faInformationGain (distinctValues data) dep) data attrs dep ∧
    (∀ t, faBuild data attrs dep = .ok t →
      ∀ m ∈ allNodes t, m.leaf = false →
        (∃ g, m.props = NodeProps.informationGain g) ∧
        ∀ k, m.props ≠ NodeProps.maxGroups k) := by
  refine ⟨faBuild_eq_build data attrs dep, ?_⟩
  intro t ht m hm hlf
  rw [faBuild_eq_build data attrs dep] at ht
  rcases createTreeAux_invariant dep (distinctValues data)
    (faInformationGain (distinctValues data) dep) attrs.length attrs le_rfl
    none data none t ht m hm with ⟨_, hint⟩
  rcases hint hlf with ⟨_, g, hg⟩
  refine ⟨⟨g, hg⟩, fun k hk => ?_⟩
  rw [hg] at hk
  exact NodeProps.noConfusion hk

/-- The tree fa's `create_tree` produces on the weather scenario: the split on
`Weather` perfectly classifies all four rows (its recorded gain evaluates to
`4/4`). -/
def faWeatherTree : DTreeNode ℚ :=
  .mk "Weather" none
    (.informationGain
      (faInformationGain (distinctValues weatherData) "Play" weatherData
        "Weather")) false
    [.mk "Yes" (some "Sunny") .empty true [],
     .mk "No" (some "Rainy") .empty true []]

unseal faCreateTreeAux faCreateChildren in
theorem faWeatherBuild_eq :
    faBuild weatherData ["Weather"] "Play" = .ok faWeatherTree := rfl

/-- Witness for C10 at the root of the fa weather tree. -/
theorem C10_fa_fallback_unreachable_witness :
    (∃ g, faWeatherTree.props = NodeProps.informationGain g) ∧
    (∀ k, faWeatherTree.props ≠ NodeProps.maxGroups k) :=
  (C10_fa_fallback_unreachable weatherData ["Weather"] "Play").2 faWeatherTree
    faWeatherBuild_eq faWeatherTree (List.mem_cons_self _ _) rfl

/-- C4: `decide` raises the `SchemaError` when the supplied record does not
match `attribute_order` (the positional interface makes this a length check);
otherwise it zips the values into a record and walks from the root: a leaf
returns its label, an internal node follows its label's value in the record
into the first child whose `parent_value` equals that value, skipping
non-matching children, and raises the `DecisionError` when no child matches
(a value unseen during training). -/
theorem C4_decide_walk_and_errors (G : Type) :
    (∀ (order : List String) (root : DTreeNode G) (vals : List String),
      vals.length ≠ order.length →
      treeDecide order root vals = .error .schemaError) ∧
    (∀ (order : List String) (root : DTreeNode G) (vals : List String),
      vals.length = order.length →
      treeDecide order root vals =
        nodeDecide (fun a => (order.zip vals).lookup a) root) ∧
    (∀ (d : String → Option String) (n : DTreeNode G),
      n.leaf = true → nodeDecide d n = .ok n.label) ∧
    (∀ (d : String → Option String) (n : DTreeNode G) (v : String),
      n.leaf = false → d n.label = some v →
      nodeDecide d n = decideChildren d v n.children) ∧
    (∀ (d : String → Option String) (v : String) (c : DTreeNode G)
        (cs : List (DTreeNode G)),
      c.parent_value = some v → decideChildren d v (c :: cs) = nodeDecide d c) ∧
    (∀ (d : String → Option String) (v : String) (c : DTreeNode G)
        (cs : List (DTreeNode G)),
      c.parent_value ≠ some v →
      decideChildren d v (c :: cs) = decideChildren d v cs) ∧
    (∀ (d : String → Option String) (v : String),
      decideChildren d v ([] : List (DTreeNode G)) = .error .decisionError) := by
  refine ⟨?_, ?_, ?_, ?_, ?_, ?_, ?_⟩
  · intro order root vals h
    simp [treeDecide, h]
  · intro order root vals h
    simp [treeDecide, h]
  · intro d n h
    cases n with
    | mk lab pv pr lf cs =>
      have hlf : lf = true := h
      subst hlf
      simp [nodeDecide, DTreeNode.label]
  · intro d n v hlf hd
    cases n with
    | mk lab pv pr lf cs =>
      have hlf2 : lf = false := hlf
      subst hlf2
      have hd2 : d lab = some v := hd
      simp [nodeDecide, hd2, DTreeNode.children]
  · intro d v c cs h
    have hb : (c.parent_value == some v) = true := by
      simp [h]
    simp [decideChildren, hb]
  · intro d v c cs h
    have hb : (c.parent_value == some v) = false := by
      simp [h]
    simp [decideChildren, hb]
  · intro d v
    simp [decideChildren]

/-- Witness for C4 at the weather tree: length mismatch gives the schema
error, `Sunny` reaches the `Yes` leaf, and the unseen `Cloudy` raises the
decision error. -/
theorem C4_decide_walk_and_errors_witness :
    treeDecide ["Weather"] weatherTree [] = .error .schemaError ∧
    treeDecide ["Weather"] weatherTree ["Sunny"] = .ok "Yes" ∧
    treeDecide ["Weather"] weatherTree ["Cloudy"] = .error .decisionError := by
  refine ⟨?_, ?_, ?_⟩
  · exact (C4_decide_walk_and_errors ℚ).1 ["Weather"] weatherTree [] (by decide)
  · have h1 := (C4_decide_walk_and_errors ℚ).2.1 ["Weather"] weatherTree
      ["Sunny"] (by decide)
    have h2 := (C4_decide_walk_and_errors ℚ).2.2.2.1
      (fun a => ((["Weather"].zip ["Sunny"]).lookup a)) weatherTree "Sunny"
      rfl rfl
    have h3 := (C4_decide_walk_and_errors ℚ).2.2.2.2.1
      (fun a => ((["Weather"].zip ["Sunny"]).lookup a)) "Sunny"
      (DTreeNode.mk "Yes" (some "Sunny") .empty true [])
      [DTreeNode.mk "No" (some "Rainy") .empty true []] rfl
    have h4 := (C4_decide_walk_and_errors ℚ).2.2.1
      (fun a => ((["Weather"].zip ["Sunny"]).lookup a))
      (DTreeNode.mk "Yes" (some "Sunny") .empty true []) rfl
    exact h1.trans (h2.trans (h3.trans h4))
  · have h1 := (C4_decide_walk_and_errors ℚ).2.1 ["Weather"] weatherTree
      ["Cloudy"] (by decide)
    have h2 := (C4_decide_walk_and_errors ℚ).2.2.2.1
      (fun a => ((["Weather"].zip ["Cloudy"]).lookup a)) weatherTree "Cloudy"
      rfl rfl
    have h3 := (C4_decide_walk_and_errors ℚ).2.2.2.2.2.1
      (fun a => ((["Weather"].zip ["Cloudy"]).lookup a)) "Cloudy"
      (DTreeNode.mk "Yes" (some "Sunny") .empty true [])
      [DTreeNode.mk "No" (some "Rainy") .empty true []] (by decide)
    have h4 := (C4_decide_walk_and_errors ℚ).2.2.2.2.2.1
      (fun a => ((["Weather"].zip ["Cloudy"]).lookup a)) "Cloudy"
      (DTreeNode.mk "No" (some "Rainy") .empty true []) [] (by decide)
    have h5 := (C4_decide_walk_and_errors ℚ).2.2.2.2.2.2
      (fun a => ((["Weather"].zip ["Cloudy"]).lookup a)) "Cloudy"
    exact h1.trans (h2.trans (h3.trans (h4.trans h5)))

theorem mem_nodeRulesList (r : Rule) (lab : String) (prev : Rule) :
    ∀ cs : List (DTreeNode G),
      r ∈ nodeRulesList lab prev cs ↔
        ∃ c ∈ cs, r ∈ nodeRules (some lab) prev c := by
  intro cs
  induction cs with
  | nil => simp [nodeRulesList]
  | cons c cs ih =>
    rw [nodeRulesList]
    simp only [List.mem_append, ih]
    constructor
    · intro h
      rcases h with h1 | ⟨d, hd, hm⟩
      · exact ⟨c, List.mem_cons_self _ _, h1⟩
      · exact ⟨d, List.mem_cons_of_mem _ hd, hm⟩
    · intro ⟨d, hd, hm⟩
      rcases List.mem_cons.mp hd with h1 | h2
      · exact Or.inl (h1 ▸ hm)
      · exact Or.inr ⟨d, h2, hm⟩

theorem nodeRules_shape (G : Type) :
    ∀ (n : Nat) (t : DTreeNode G), sizeOf t ≤ n →
      ∀ (pl : Option String) (prev : Rule),
        (∀ e ∈ prev, ∃ a v, e = RuleEntry.pair a v) →
        ∀ r ∈ nodeRules pl prev t,
          ∃ ps lb, r = ps ++ [RuleEntry.lab lb] ∧
            ∀ e ∈ ps, ∃ a v, e = RuleEntry.pair a v := by
  intro n
  induction n with
  | zero =>
    intro t hsz
    cases t with
    | mk lab pv pr lf cs =>
      exfalso
      simp only [DTreeNode.mk.sizeOf_spec] at hsz
      omega
  | succ n ih =>
    intro t hsz pl prev hprev r hr
    cases t with
    | mk lab pv pr lf cs =>
      simp only [nodeRules] at hr
      have hprev2 : ∀ e ∈ (match pl with
          | none => prev
          | some pl2 => prev ++ [RuleEntry.pair pl2 pv]),
          ∃ a v, e = RuleEntry.pair a v := by
        cases pl with
        | none => exact hprev
        | some pl2 =>
          intro e he
          rcases List.mem_append.mp he with h1 | h2
          · exact hprev e h1
          · exact ⟨pl2, pv, List.mem_singleton.mp h2⟩
      cases lf with
      | true =>
        simp only [if_pos] at hr
        rw [List.mem_singleton.mp hr]
        exact ⟨_, lab, rfl, hprev2⟩
      | false =>
        simp only [Bool.false_eq_true, if_false] at hr
        rcases (mem_nodeRulesList r lab _ cs).mp hr with ⟨c, hc, hm⟩
        have hszc : sizeOf c ≤ n := by
          have h1 := List.sizeOf_lt_of_mem hc
          simp only [DTreeNode.mk.sizeOf_spec] at hsz
          omega
        exact ih c hszc (some lab) _ hprev2 r hm

theorem ruleVals_append_lab (ps : Rule) (lb : String) :
    ruleVals (ps ++ [RuleEntry.lab lb]) = ruleVals ps := by
  simp [ruleVals, List.filterMap_append]

theorem ruleVals_length_of_pairs (ps : Rule)
    (h : ∀ e ∈ ps, ∃ a v, e = RuleEntry.pair a v) :
    (ruleVals ps).length = ps.length := by
  induction ps with
  | nil => rfl
  | cons e es ihe =>
    rcases h e (List.mem_cons_self _ _) with ⟨a, v, he⟩
    subst he
    cases v with
    | none =>
      simp only [ruleVals, List.filterMap_cons, List.length_cons]
      have := ihe (fun e2 he2 => h e2 (List.mem_cons_of_mem _ he2))
      simp only [ruleVals] at this
      simp [this]
    | some w =>
      simp only [ruleVals, List.filterMap_cons, List.length_cons]
      have := ihe (fun e2 he2 => h e2 (List.mem_cons_of_mem _ he2))
      simp only [ruleVals] at this
      simp [this]

/-- C8: `rules()` returns the root-to-leaf traversals — each a sequence of
`(attribute, value)` pairs terminated by the leaf's class label — as a
permutation of the raw traversal list, sorted first by path length ascending
and then lexicographically by the sequence of values along the path; the
leaf label and the attribute names do not participate in the key
(`ruleVals` extracts only the values). -/
theorem C8_rules_sorted (G : Type) (t : DTreeNode G) :
    (treeRules t).Perm (nodeRules none [] t) ∧
    (∀ r ∈ nodeRules none [] t, ∃ ps lb,
      r = ps ++ [RuleEntry.lab lb] ∧
      ∀ e ∈ ps, ∃ a v, e = RuleEntry.pair a v) ∧
    (treeRules t).Pairwise (fun r1 r2 =>
      (ruleVals r1).length < (ruleVals r2).length ∨
      ((ruleVals r1).length = (ruleVals r2).length ∧ ruleVals r1 ≤ ruleVals r2)) := by
  have hshape : ∀ r ∈ nodeRules none [] t, ∃ ps lb,
      r = ps ++ [RuleEntry.lab lb] ∧
      ∀ e ∈ ps, ∃ a v, e = RuleEntry.pair a v :=
    fun r hr => nodeRules_shape G (sizeOf t) t le_rfl none [] (by simp) r hr
  have hlen : ∀ r ∈ nodeRules none [] t,
      r.length = (ruleVals r).length + 1 := by
    intro r hr
    rcases hshape r hr with ⟨ps, lb, hre, hp⟩
    subst hre
    rw [ruleVals_append_lab, ruleVals_length_of_pairs ps hp]
    simp
  refine ⟨List.perm_insertionSort ruleLE _, hshape, ?_⟩
  have hsorted : (treeRules t).Pairwise ruleLE :=
    List.sorted_insertionSort ruleLE (nodeRules none [] t)
  refine hsorted.imp_of_mem ?_
  intro r1 r2 h1 h2 hle
  have hm1 : r1 ∈ nodeRules none [] t :=
    (List.perm_insertionSort ruleLE (nodeRules none [] t)).subset h1
  have hm2 : r2 ∈ nodeRules none [] t :=
    (List.perm_insertionSort ruleLE (nodeRules none [] t)).subset h2
  have hl1 := hlen r1 hm1
  have hl2 := hlen r2 hm2
  have hle2 : toLex (r1.length, ruleVals r1) ≤ toLex (r2.length, ruleVals r2) := hle
  rw [Prod.Lex.le_iff] at hle2
  rcases hle2 with h | ⟨heq, hv⟩
  · simp only at h
    left
    omega
  · simp only at heq hv
    right
    exact ⟨by omega, hv⟩

/-- Witness for C8 at the weather tree. -/
theorem C8_rules_sorted_witness :
    (treeRules weatherTree).Perm (nodeRules none [] weatherTree) ∧
    (∀ r ∈ nodeRules none [] weatherTree, ∃ ps lb,
      r = ps ++ [RuleEntry.lab lb] ∧
      ∀ e ∈ ps, ∃ a v, e = RuleEntry.pair a v) ∧
    (treeRules weatherTree).Pairwise (fun r1 r2 =>
      (ruleVals r1).length < (ruleVals r2).length ∨
      ((ruleVals r1).length = (ruleVals r2).length ∧ ruleVals r1 ≤ ruleVals r2)) :=
  C8_rules_sorted ℚ weatherTree

/-- A depth-2 tree: the root splits on `A`; the `y` branch splits again on
`B`.  Any dataset that needs two attribute tests produces such a tree. -/
def deepTree : DTreeNode ℚ :=
  .mk "A" none (.informationGain 0) false
    [.mk "yes" (some "x") .empty true [],
     .mk "B" (some "y") (.informationGain 0) false
       [.mk "yes" (some "u") .empty true [],
        .mk "no" (some "v") .empty true []]]

unseal String.ltb in
/-- C1 (code bug): on a tree of depth 2 the number of rules is 3 and the
number of leaves is 3 (per the spec-modelled `specLeafCount`), but the code's
`num_leaves` raises `AttributeError` (`none`): `DTreeNode._num_leaves` reads
`c.num_leaves`, an attribute `DTreeNode` does not define.  On trees of depth
at most 1 the access is never reached and `num_leaves` agrees with the rule
count, as the weather tree shows. -/
theorem C1_leaf_count_attribute_error :
    treeNumLeaves deepTree = none ∧
    specLeafCount deepTree = 3 ∧
    (treeRules deepTree).length = 3 ∧
    treeNumLeaves weatherTree = some 2 ∧
    (treeRules weatherTree).length = 2 := by
  refine ⟨by decide, by decide, by decide, by decide, by decide⟩
